import Mathlib

/-
  Shallow embedding of pyaudioaliasingmetrics (src/audioaliasingmetrics/):
  utils.py (find_peak_bin_from_freq, find_nearest_peak_around, is_peak,
  find_peak_bins), snr.py (inner_snr, snr) and sinad.py (inner_sinad, sinad).

  Spectra are lists of rationals; bin indices are integers, matching the
  Python/numpy int arithmetic exactly for the finite quantities involved
  (floor/ceil on exact rationals stand in for the float expressions).
  Out-of-range reads, which are unchecked in the njit-compiled source,
  are modelled as returning 0; every theorem below that depends on an
  index stays inside the in-range regime via its hypotheses or via a
  concrete input where the source's behaviour is defined.
-/

set_option maxRecDepth 4000

/-- Read `ps[i]` for an integer index; 0 outside `[0, len)` (unchecked in the source). -/
def npGet (ps : List ℚ) (i : ℤ) : ℚ :=
  if 0 ≤ i ∧ i < (ps.length : ℤ) then ps.getD i.toNat 0 else 0

/-- Python slice `l[a:b]` for integer bounds in the non-negative regime. -/
def pySlice (l : List ℚ) (a b : ℤ) : List ℚ :=
  (l.drop a.toNat).take (b - a).toNat

/-- utils.is_peak: `slice_of_3[1] > slice_of_3[0] and slice_of_3[1] > slice_of_3[2]`. -/
def is_peak (slice_of_3 : List ℚ) : Bool :=
  decide (slice_of_3.getD 0 0 < slice_of_3.getD 1 0) &&
    decide (slice_of_3.getD 2 0 < slice_of_3.getD 1 0)

/-- Maximum of a list (helper for np.argmax). -/
def listMax : List ℚ → ℚ
  | [] => 0
  | [x] => x
  | x :: y :: t => max x (listMax (y :: t))

/-- np.argmax: index of the first occurrence of the maximum value. -/
def np_argmax : List ℚ → ℕ
  | [] => 0
  | [_] => 0
  | x :: y :: t => if listMax (y :: t) ≤ x then 0 else np_argmax (y :: t) + 1

/-- The `for i in range(0, search_width)` loop of utils.find_nearest_peak_around:
right side checked first, then left; `none` when the loop falls through. -/
def peak_search_loop (ps_slice : List ℚ) (center : ℤ) (i : ℕ) : ℕ → Option ℤ
  | 0 => none
  | fuel + 1 =>
    let right_idx := center + (i : ℤ)
    if right_idx + 1 < (ps_slice.length : ℤ) ∧
        is_peak (pySlice ps_slice (right_idx - 1) (right_idx + 2)) then
      some right_idx
    else
      let left_idx := center - (i : ℤ)
      if 0 ≤ left_idx - 1 ∧ is_peak (pySlice ps_slice (left_idx - 1) (left_idx + 2)) then
        some left_idx
      else
        peak_search_loop ps_slice center (i + 1) fuel

/-- utils.find_nearest_peak_around.  NOTE: faithful to the source, the `center`
argument is immediately shadowed by `ps_slice.shape[0] // 2`. -/
def find_nearest_peak_around (ps_slice : List ℚ) (center : ℤ) (search_width : ℕ) : ℤ :=
  let center := ((ps_slice.length / 2 : ℕ) : ℤ)
  match peak_search_loop ps_slice center 0 search_width with
  | some r => r
  | none => (np_argmax ps_slice : ℤ)

/-- utils.find_peak_bin_from_freq (default `search_width_hz = 10` is passed
explicitly by callers below). -/
def find_peak_bin_from_freq (freq_hint : ℚ) (ps : List ℚ) (sr : ℚ)
    (search_width_hz : ℚ) : ℤ :=
  let num_bins : ℤ := ps.length
  let hint_idx : ℤ := ⌊2 * freq_hint / sr * ((num_bins : ℚ) - 1)⌋
  let search_width : ℤ := ⌈search_width_hz / (sr / 2) * ((num_bins : ℚ) - 1)⌉
  let left_limit := hint_idx - search_width
  let search_center := if left_limit < 0 then search_width + left_limit else search_width
  let left_limit2 := if left_limit < 0 then 0 else left_limit
  let right_limit := min num_bins (hint_idx + search_width + 1)
  let search_slice := pySlice ps left_limit2 right_limit
  find_nearest_peak_around search_slice search_center search_width.toNat
    + hint_idx - search_width

/-- First loop of utils.find_peak_bins ("Find values before peak"):
walk leftward from `peak_idx` while values stay non-increasing. -/
def walk_before (ps : List ℚ) (peak_idx : ℤ) (crt_val : ℚ) (i : ℕ) : ℕ → List ℤ
  | 0 => []
  | fuel + 1 =>
    let new_bin := peak_idx - (i : ℤ)
    if new_bin < 0 then []
    else
      let new_val := npGet ps new_bin
      if crt_val < new_val then []
      else new_bin :: walk_before ps peak_idx new_val (i + 1) fuel

/-- Second loop of utils.find_peak_bins ("Find values after peak"). -/
def walk_after (ps : List ℚ) (peak_idx : ℤ) (crt_val : ℚ) (i : ℕ) : ℕ → List ℤ
  | 0 => []
  | fuel + 1 =>
    let new_bin := peak_idx + (i : ℤ)
    if (ps.length : ℤ) ≤ new_bin then []
    else
      let new_val := npGet ps new_bin
      if crt_val < new_val then []
      else new_bin :: walk_after ps peak_idx new_val (i + 1) fuel

/-- utils.find_peak_bins (callers pass the default `search_width = 1000`). -/
def find_peak_bins (peak_idx : ℤ) (ps : List ℚ) (search_width : ℕ) : List ℤ :=
  let peak := npGet ps peak_idx
  walk_before ps peak_idx peak 0 search_width ++ walk_after ps peak_idx peak 0 search_width

/-- np.delete(ps, to_del): keep, in order, the entries whose index is not listed. -/
def np_delete (ps : List ℚ) (to_del : List ℤ) : List ℚ :=
  ((List.range ps.length).filter (fun i : ℕ => !(to_del.contains (i : ℤ)))).map
    (fun i => ps.getD i 0)

/-- All intermediate values of snr.inner_snr. -/
structure SnrState where
  fund_bin : ℤ
  fund_peak_bins : List ℤ
  harmonics_bins : List ℤ
  signal_bins : List ℤ
  signal_power : ℚ
  to_delete : List ℤ
  noise_power : ℚ
  log_arg : ℚ

/-- snr.inner_snr, statement by statement; the returned float is
`10*log10(log_arg)`, everything else is exact. -/
def inner_snr (periodigram : List ℚ) (samplerate fundamental : ℚ)
    (harmonics : List ℤ) (harmonics_excluded : Bool) : SnrState :=
  let fund_bin := find_peak_bin_from_freq fundamental periodigram samplerate 10
  let fund_peak_bins := find_peak_bins fund_bin periodigram 1000
  let harmonics_bins := harmonics.foldl
    (fun (acc : List ℤ) (h : ℤ) => acc ++ find_peak_bins
      (find_peak_bin_from_freq ((h : ℚ) * fundamental) periodigram samplerate 10)
      periodigram 1000) []
  let signal_bins := if harmonics_excluded then fund_peak_bins
    else fund_peak_bins ++ harmonics_bins
  let signal_power := (signal_bins.map (npGet periodigram)).sum
  let to_delete := fund_peak_bins ++ harmonics_bins
  let noise := np_delete periodigram to_delete
  let noise_power := (noise.drop 1).sum
  ⟨fund_bin, fund_peak_bins, harmonics_bins, signal_bins, signal_power,
    to_delete, noise_power, signal_power / noise_power⟩

/-- All intermediate values of sinad.inner_sinad, including the final states of
the two caller-supplied arrays (`noisy_magnitudes` is scaled in place). -/
structure SinadState where
  noisyOut : List ℚ
  cleanOut : List ℚ
  fund_bin : ℤ
  fund_peak_bins : List ℤ
  mag_scale : ℚ
  harmonics_bins : List ℤ
  signal_bins : List ℤ
  signal_power : ℚ
  nad_power : ℚ
  log_arg : ℚ

/-- sinad.inner_sinad, statement by statement (`mag_scale` is the source's
`mag_ratio`); the returned float is `10*log10(log_arg)`. -/
def inner_sinad (noisy_magnitudes clean_magnitudes : List ℚ)
    (samplerate fundamental : ℚ) (harmonics : List ℤ) : SinadState :=
  let fund_bin := find_peak_bin_from_freq fundamental noisy_magnitudes samplerate 10
  let fund_peak_bins := find_peak_bins fund_bin noisy_magnitudes 1000
  let lo := fund_peak_bins.headD 0
  let hi := fund_peak_bins.getLastD 0
  let mag_sum_noised := (pySlice noisy_magnitudes lo hi).sum
  let mag_sum_clean := (pySlice clean_magnitudes lo hi).sum
  let mag_scale := mag_sum_noised / mag_sum_clean
  let noisy_scaled := noisy_magnitudes.map (fun x => x * mag_scale)
  let noise_magnitudes := List.zipWith (fun a b => a - b) noisy_scaled clean_magnitudes
  let psd_clean := clean_magnitudes.map (fun x => x * x)
  let psd_noise := noise_magnitudes.map (fun x => x * x)
  let psd_noisy := noisy_scaled.map (fun x => x * x)
  let harmonics_bins := harmonics.foldl
    (fun (acc : List ℤ) (h : ℤ) => acc ++ find_peak_bins
      (find_peak_bin_from_freq ((h : ℚ) * fundamental) psd_clean samplerate 10)
      psd_noisy 1000) []
  let signal_bins := fund_peak_bins ++ harmonics_bins
  let signal_power := (signal_bins.map (npGet psd_clean)).sum
  let nad := np_delete psd_noise fund_peak_bins
  let nad_power := (nad.drop 1).sum
  ⟨noisy_scaled, clean_magnitudes, fund_bin, fund_peak_bins, mag_scale,
    harmonics_bins, signal_bins, signal_power, nad_power,
    (signal_power + nad_power) / nad_power⟩

/-- floor((samplerate / 2) / fundamental), the bound checked on the top harmonic. -/
def top_harmonic (samplerate fundamental : ℚ) : ℤ := ⌊(samplerate / 2) / fundamental⌋

/-- np.sort on the harmonics array. -/
def np_sort (l : List ℤ) : List ℤ := l.mergeSort (fun a b => decide (a ≤ b))

/-- The argument validation shared verbatim by snr.snr and sinad.sinad
(explicit harmonics-list branch). -/
def validate_args (samplerate fundamental : ℚ) (harmonics : List ℤ) :
    Except String Unit :=
  if samplerate ≤ 0 then Except.error "Invalid samplerate value"
  else if fundamental ≤ 0 ∨ samplerate / 2 < fundamental then
    Except.error "Invalid fundamental value"
  else
    let s := np_sort harmonics
    if 0 < harmonics.length then
      if s.headD 0 < 2 then Except.error "Harmonics values must be >=2"
      else if top_harmonic samplerate fundamental < s.getLastD 0 then
        Except.error ("Given your fundamental, the highest harmonic value should be "
          ++ toString (top_harmonic samplerate fundamental))
      else Except.ok ()
    else Except.ok ()

/-- snr.snr (explicit harmonics-list branch): validate, square the magnitude
into a fresh array, dispatch.  The second component of the result is the final
state of the caller's `magnitude` array, which snr never writes. -/
def snr (magnitude : List ℚ) (samplerate fundamental : ℚ) (harmonics : List ℤ)
    (harmonics_excluded : Bool) : Except String (SnrState × List ℚ) :=
  match validate_args samplerate fundamental harmonics with
  | Except.error e => Except.error e
  | Except.ok _ => Except.ok
      (inner_snr (magnitude.map (fun x => x * x)) samplerate fundamental
        (np_sort harmonics) harmonics_excluded, magnitude)

/-- sinad.sinad (explicit harmonics-list branch). -/
def sinad (noisy_magnitudes clean_magnitudes : List ℚ)
    (samplerate fundamental : ℚ) (harmonics : List ℤ) : Except String SinadState :=
  match validate_args samplerate fundamental harmonics with
  | Except.error e => Except.error e
  | Except.ok _ => Except.ok
      (inner_sinad noisy_magnitudes clean_magnitudes samplerate fundamental
        (np_sort harmonics))

/-! Structure of the two walks of find_peak_bins. -/

theorem walk_before_shape (ps : List ℚ) (p : ℤ) :
    ∀ (fuel i : ℕ) (v : ℚ), ∃ k : ℕ, k ≤ fuel ∧
      walk_before ps p v i fuel = (List.range k).map (fun j : ℕ => p - (i : ℤ) - (j : ℤ)) := by
  intro fuel
  induction fuel with
  | zero => exact fun i v => ⟨0, le_rfl, rfl⟩
  | succ n ih =>
    intro i v
    by_cases h1 : p - (i : ℤ) < 0
    · exact ⟨0, Nat.zero_le _, by simp [walk_before, h1]⟩
    · by_cases h2 : v < npGet ps (p - (i : ℤ))
      · exact ⟨0, Nat.zero_le _, by simp [walk_before, h1, h2]⟩
      · obtain ⟨k, hk, he⟩ := ih (i + 1) (npGet ps (p - (i : ℤ)))
        refine ⟨k + 1, by omega, ?_⟩
        simp only [walk_before, if_neg h1, if_neg h2]
        rw [he, List.range_succ_eq_map, List.map_cons, List.map_map]
        congr 1
        · push_cast; ring
        · refine List.map_congr_left ?_
          intro a _
          simp only [Function.comp_apply]
          push_cast
          ring

theorem walk_after_shape (ps : List ℚ) (p : ℤ) :
    ∀ (fuel i : ℕ) (v : ℚ), ∃ k : ℕ, k ≤ fuel ∧
      (∀ j : ℕ, j < k → p + (i : ℤ) + (j : ℤ) < (ps.length : ℤ)) ∧
      walk_after ps p v i fuel = (List.range k).map (fun j : ℕ => p + (i : ℤ) + (j : ℤ)) := by
  intro fuel
  induction fuel with
  | zero => exact fun i v => ⟨0, le_rfl, by omega, rfl⟩
  | succ n ih =>
    intro i v
    by_cases h1 : (ps.length : ℤ) ≤ p + (i : ℤ)
    · exact ⟨0, Nat.zero_le _, by omega, by simp [walk_after, h1]⟩
    · by_cases h2 : v < npGet ps (p + (i : ℤ))
      · exact ⟨0, Nat.zero_le _, by omega, by simp [walk_after, h1, h2]⟩
      · obtain ⟨k, hk, hb, he⟩ := ih (i + 1) (npGet ps (p + (i : ℤ)))
        refine ⟨k + 1, by omega, ?_, ?_⟩
        · intro j hj
          rcases Nat.eq_zero_or_pos j with hj0 | hj0
          · subst hj0; push_cast; omega
          · have := hb (j - 1) (by omega)
            push_cast at this ⊢
            omega
        · simp only [walk_after, if_neg h1, if_neg h2]
          rw [he, List.range_succ_eq_map, List.map_cons, List.map_map]
          congr 1
          · push_cast; ring
          · refine List.map_congr_left ?_
            intro a _
            simp only [Function.comp_apply]
            push_cast
            ring

/-- Full structural description of a skirt for an in-range seed: it is the
leftward run followed by the rightward run, both starting at the seed, so the
seed occurs twice, the index set is a contiguous interval `[a, b]` around the
seed, the first element is the seed and the last element is the right end. -/
theorem find_peak_bins_spec (ps : List ℚ) (p : ℤ) (sw : ℕ)
    (h0 : 0 ≤ p) (h1 : p < (ps.length : ℤ)) (h2 : 0 < sw) :
    ∃ a b : ℤ, a ≤ p ∧ p ≤ b ∧ b < (ps.length : ℤ) ∧
      (find_peak_bins p ps sw).toFinset = Finset.Icc a b ∧
      (find_peak_bins p ps sw).count p = 2 ∧
      (find_peak_bins p ps sw).head? = some p ∧
      (find_peak_bins p ps sw).getLastD 0 = b ∧
      (∀ x ∈ find_peak_bins p ps sw, x ≤ b) ∧
      ((find_peak_bins p ps sw).map (npGet ps)).sum
        = (find_peak_bins p ps sw).toFinset.sum (npGet ps) + npGet ps p := by
  obtain ⟨k, hk, hbe⟩ := walk_before_shape ps p sw 0 (npGet ps p)
  obtain ⟨m, hm, hmb, haf⟩ := walk_after_shape ps p sw 0 (npGet ps p)
  simp only [Nat.cast_zero, sub_zero] at hbe
  simp only [Nat.cast_zero, add_zero] at haf hmb
  have hne : walk_before ps p (npGet ps p) 0 sw ≠ [] := by
    obtain ⟨n, rfl⟩ : ∃ n, sw = n + 1 := ⟨sw - 1, by omega⟩
    simp only [walk_before, Nat.cast_zero, sub_zero]
    rw [if_neg (by omega), if_neg (lt_irrefl _)]
    exact List.cons_ne_nil _ _
  have hne2 : walk_after ps p (npGet ps p) 0 sw ≠ [] := by
    obtain ⟨n, rfl⟩ : ∃ n, sw = n + 1 := ⟨sw - 1, by omega⟩
    simp only [walk_after, Nat.cast_zero, add_zero]
    rw [if_neg (by omega), if_neg (lt_irrefl _)]
    exact List.cons_ne_nil _ _
  have hkpos : 0 < k := by
    rcases Nat.eq_zero_or_pos k with hk0 | hk0
    · subst hk0; simp at hbe; exact absurd hbe hne
    · exact hk0
  have hmpos : 0 < m := by
    rcases Nat.eq_zero_or_pos m with hm0 | hm0
    · subst hm0; simp at haf; exact absurd haf hne2
    · exact hm0
  have hfpb : find_peak_bins p ps sw =
      (List.range k).map (fun j : ℕ => p - (j : ℤ)) ++
        (List.range m).map (fun j : ℕ => p + (j : ℤ)) := by
    rw [find_peak_bins]
    rw [hbe, haf]
  set L : List ℤ := (List.range k).map (fun j : ℕ => p - (j : ℤ)) with hLdef
  set R : List ℤ := (List.range m).map (fun j : ℕ => p + (j : ℤ)) with hRdef
  have memL : ∀ x : ℤ, x ∈ L ↔ (p - (k : ℤ) + 1 ≤ x ∧ x ≤ p) := by
    intro x
    simp only [hLdef, List.mem_map, List.mem_range]
    constructor
    · rintro ⟨j, hj, rfl⟩; omega
    · intro hx; exact ⟨(p - x).toNat, by omega, by omega⟩
  have memR : ∀ x : ℤ, x ∈ R ↔ (p ≤ x ∧ x ≤ p + (m : ℤ) - 1) := by
    intro x
    simp only [hRdef, List.mem_map, List.mem_range]
    constructor
    · rintro ⟨j, hj, rfl⟩; omega
    · intro hx; exact ⟨(x - p).toNat, by omega, by omega⟩
  have nodupL : L.Nodup := by
    refine List.Nodup.map ?_ (List.nodup_range k)
    intro x y hxy
    have hxy2 : p - (x : ℤ) = p - (y : ℤ) := hxy
    omega
  have nodupR : R.Nodup := by
    refine List.Nodup.map ?_ (List.nodup_range m)
    intro x y hxy
    have hxy2 : p + (x : ℤ) = p + (y : ℤ) := hxy
    omega
  have hLf : L.toFinset = Finset.Icc (p - (k : ℤ) + 1) p := by
    ext x; rw [List.mem_toFinset, memL, Finset.mem_Icc]
  have hRf : R.toFinset = Finset.Icc p (p + (m : ℤ) - 1) := by
    ext x; rw [List.mem_toFinset, memR, Finset.mem_Icc]
  refine ⟨p - (k : ℤ) + 1, p + (m : ℤ) - 1, by omega, by omega, ?_, ?_, ?_, ?_, ?_, ?_, ?_⟩
  · have := hmb (m - 1) (by omega)
    push_cast at this
    omega
  · rw [hfpb, List.toFinset_append, hLf, hRf]
    ext x
    simp only [Finset.mem_union, Finset.mem_Icc]
    omega
  · rw [hfpb, List.count_append]
    have hcl : List.count p L = 1 :=
      List.count_eq_one_of_mem nodupL ((memL p).mpr ⟨by omega, le_rfl⟩)
    have hcr : List.count p R = 1 :=
      List.count_eq_one_of_mem nodupR ((memR p).mpr ⟨le_rfl, by omega⟩)
    rw [hcl, hcr]
  · obtain ⟨k', rfl⟩ : ∃ k', k = k' + 1 := ⟨k - 1, by omega⟩
    rw [hfpb, hLdef, List.range_succ_eq_map, List.map_cons, List.cons_append]
    simp
  · obtain ⟨m', rfl⟩ : ∃ m', m = m' + 1 := ⟨m - 1, by omega⟩
    rw [hfpb, hRdef, List.range_succ, List.map_append, List.map_singleton,
      ← List.append_assoc]
    rw [List.getLastD_eq_getLast?, List.getLast?_concat]
    push_cast
    simp only [Option.getD_some]
    ring
  · intro x hx
    rw [hfpb, List.mem_append] at hx
    rcases hx with hx | hx
    · have := (memL x).mp hx; omega
    · have := (memR x).mp hx; omega
  · rw [hfpb, List.map_append, List.sum_append, List.toFinset_append]
    have sumL : (L.map (npGet ps)).sum = L.toFinset.sum (npGet ps) :=
      (List.sum_toFinset _ nodupL).symm
    have sumR : (R.map (npGet ps)).sum = R.toFinset.sum (npGet ps) :=
      (List.sum_toFinset _ nodupR).symm
    have hinter : L.toFinset ∩ R.toFinset = {p} := by
      rw [hLf, hRf]
      ext x
      simp only [Finset.mem_inter, Finset.mem_Icc, Finset.mem_singleton]
      omega
    have hu := @Finset.sum_union_inter ℤ ℚ L.toFinset R.toFinset (npGet ps) _ _
    rw [hinter, Finset.sum_singleton] at hu
    rw [sumL, sumR, ← hu]

/-! Generic list lemmas used to restate the power sums. -/

theorem foldl_append_eq_join (g : ℤ → List ℤ) (hs : List ℤ) :
    ∀ acc : List ℤ, hs.foldl (fun a h => a ++ g h) acc = acc ++ (hs.map g).join := by
  induction hs with
  | nil => intro acc; simp
  | cons h t ih => intro acc; simp [ih, List.append_assoc]

theorem join_map_sum (F : ℤ → ℚ) (l : List (List ℤ)) :
    ((l.join).map F).sum = (l.map (fun x => (x.map F).sum)).sum := by
  induction l with
  | nil => simp
  | cons h t ih =>
    rw [show (h :: t).join = h ++ t.join from rfl, List.map_append, List.sum_append,
      List.map_cons, List.sum_cons, ih]

/-- Dropping one element after np.delete: when bin 0 survives the deletion,
the dropped element is exactly bin 0, so what remains is the sum over all
bins that are neither deleted nor the DC bin. -/
theorem np_delete_drop_one (ps : List ℚ) (D : List ℤ) (h0 : (0 : ℤ) ∉ D)
    (hN : ps ≠ []) :
    (np_delete ps D).drop 1 =
      ((List.range ps.length).filter
        (fun i : ℕ => !(D.contains (i : ℤ)) && !(i == 0))).map (fun i => ps.getD i 0) := by
  obtain ⟨n, hn⟩ : ∃ n, ps.length = n + 1 := by
    cases ps with
    | nil => exact absurd rfl hN
    | cons a t => exact ⟨t.length, rfl⟩
  have hc : (D.contains ((0 : ℕ) : ℤ)) = false := by
    simp only [Nat.cast_zero]
    simpa using h0
  rw [np_delete, hn, List.range_succ_eq_map]
  rw [List.filter_cons, List.filter_cons]
  simp only [hc, Bool.not_false, beq_self_eq_true, Bool.not_true, Bool.and_false,
    Bool.true_and, Bool.and_true, if_true, if_false, List.map_cons,
    List.drop_succ_cons, List.drop_zero, reduceIte]
  have hcong : List.filter (fun i : ℕ => !(D.contains (i : ℤ)))
        (List.map Nat.succ (List.range n)) =
      List.filter (fun i : ℕ => !(D.contains (i : ℤ)) && !(i == 0))
        (List.map Nat.succ (List.range n)) := by
    refine List.filter_congr ?_
    intro x hx
    obtain ⟨j, _, rfl⟩ := List.mem_map.mp hx
    have : (Nat.succ j == 0) = false := by simp
    rw [this]
    simp
  rw [hcong]
  simp

theorem list_range_map_sum (g : ℕ → ℚ) (n : ℕ) :
    ((List.range n).map g).sum = ∑ j ∈ Finset.range n, g j := by
  induction n with
  | zero => simp
  | succ n ih => rw [List.range_succ, List.map_append, List.sum_append,
      Finset.sum_range_succ, ih]; simp

theorem take_map_range : ∀ (l : List ℚ) (k : ℕ), k ≤ l.length →
    l.take k = (List.range k).map (fun j => l.getD j 0) := by
  intro l
  induction l with
  | nil =>
    intro k hk
    have hk0 : k = 0 := by simpa using hk
    subst hk0
    simp
  | cons c t ih =>
    intro k hk
    cases k with
    | zero => simp
    | succ k' =>
      rw [List.take_succ_cons, List.range_succ_eq_map, List.map_cons, List.map_map]
      simp only [List.getD_cons_zero]
      congr 1
      rw [ih k' (by simpa using hk)]
      refine List.map_congr_left ?_
      intro a _
      simp [Function.comp_apply, List.getD_cons_succ]

theorem int_Ico_sum (F : ℤ → ℚ) (a : ℤ) (n : ℕ) :
    ∑ i ∈ Finset.Ico a (a + (n : ℤ)), F i = ∑ j ∈ Finset.range n, F (a + (j : ℤ)) := by
  induction n with
  | zero => simp
  | succ n ih =>
    have h1 : a + ((n + 1 : ℕ) : ℤ) = (a + (n : ℤ)) + 1 := by push_cast; ring
    have h2 : Finset.Ico a (a + (n : ℤ) + 1) = insert (a + (n : ℤ)) (Finset.Ico a (a + (n : ℤ))) := by
      ext x
      simp only [Finset.mem_Ico, Finset.mem_insert]
      omega
    have h3 : a + (n : ℤ) ∉ Finset.Ico a (a + (n : ℤ)) := by
      simp only [Finset.mem_Ico]
      omega
    rw [h1, h2, Finset.sum_insert h3, ih, Finset.sum_range_succ]
    ring

/-- Summing a python slice `l[a:b]` equals summing `npGet` over `[a, b)`. -/
theorem pySlice_sum (l : List ℚ) (a b : ℤ) (h0 : 0 ≤ a) (hb : b ≤ (l.length : ℤ)) :
    (pySlice l a b).sum = ∑ i ∈ Finset.Ico a b, npGet l i := by
  by_cases hab : b ≤ a
  · rw [pySlice]
    have h1 : (b - a).toNat = 0 := by omega
    rw [h1, List.take_zero]
    rw [Finset.Ico_eq_empty (by omega)]
    simp
  · have hlen : (b - a).toNat ≤ (l.drop a.toNat).length := by
      rw [List.length_drop]
      omega
    rw [pySlice, take_map_range _ _ hlen, list_range_map_sum]
    have hIco := int_Ico_sum (npGet l) a ((b - a).toNat)
    rw [show a + ((((b - a).toNat : ℕ)) : ℤ) = b by omega] at hIco
    rw [hIco]
    refine Finset.sum_congr rfl ?_
    intro j hj
    rw [Finset.mem_range] at hj
    have hget : (l.drop a.toNat).getD j 0 = l.getD (a.toNat + j) 0 := by
      rw [List.getD_eq_getElem?_getD, List.getD_eq_getElem?_getD, List.getElem?_drop]
    rw [hget, npGet]
    rw [if_pos (by constructor <;> omega)]
    congr 1
    omega

/-! Facts about np.sort used by the argument validation. -/

theorem np_sort_perm (l : List ℤ) : (np_sort l).Perm l := List.mergeSort_perm l _

theorem np_sort_sorted (l : List ℤ) :
    List.Pairwise (fun a b : ℤ => a ≤ b) (np_sort l) := by
  have h := @List.sorted_mergeSort ℤ (fun a b => decide (a ≤ b))
    (fun a b c hab hbc => by simp only [decide_eq_true_eq] at hab hbc ⊢; omega)
    (fun a b => by simpa using Int.le_total a b) l
  exact h.imp (fun hab => by simpa using hab)

theorem sorted_getLastD_max (s : List ℤ)
    (hs : List.Pairwise (fun a b : ℤ => a ≤ b) s) (hne : s ≠ []) :
    s.getLastD 0 ∈ s ∧ ∀ x ∈ s, x ≤ s.getLastD 0 := by
  induction s with
  | nil => exact absurd rfl hne
  | cons a t ih =>
    rcases eq_or_ne t [] with rfl | hte
    · simp
    · obtain ⟨hmem, hall⟩ := ih (List.pairwise_cons.mp hs).2 hte
      have hgd : (a :: t).getLastD 0 = t.getLastD 0 := by
        rw [List.getLastD_cons]
        cases hgl : t.getLast? with
        | none =>
          rw [List.getLast?_eq_none_iff] at hgl
          exact absurd hgl hte
        | some y =>
          rw [List.getLastD_eq_getLast?, List.getLastD_eq_getLast?, hgl]
          rfl
      rw [hgd]
      refine ⟨List.mem_cons_of_mem a hmem, ?_⟩
      intro x hx
      rcases List.mem_cons.mp hx with rfl | hx
      · exact (List.pairwise_cons.mp hs).1 _ hmem
      · exact hall x hx

theorem np_sort_headD_min (l : List ℤ) (hne : l ≠ []) :
    (np_sort l).headD 0 ∈ l ∧ ∀ x ∈ l, (np_sort l).headD 0 ≤ x := by
  have hperm := np_sort_perm l
  have hsne : np_sort l ≠ [] := by
    intro h
    rw [h] at hperm
    exact hne (List.Perm.nil_eq hperm).symm
  obtain ⟨a, t, hs⟩ := List.exists_cons_of_ne_nil hsne
  have hsorted := np_sort_sorted l
  rw [hs] at hsorted hperm ⊢
  simp only [List.headD_cons]
  refine ⟨hperm.mem_iff.mp (List.mem_cons_self a t), ?_⟩
  intro x hx
  rcases List.mem_cons.mp (hperm.mem_iff.mpr hx) with rfl | hx2
  · exact le_rfl
  · exact (List.pairwise_cons.mp hsorted).1 x hx2

theorem np_sort_getLastD_max (l : List ℤ) (hne : l ≠ []) :
    (np_sort l).getLastD 0 ∈ l ∧ ∀ x ∈ l, x ≤ (np_sort l).getLastD 0 := by
  have hperm := np_sort_perm l
  have hsne : np_sort l ≠ [] := by
    intro h
    rw [h] at hperm
    exact hne (List.Perm.nil_eq hperm).symm
  obtain ⟨hmem, hall⟩ := sorted_getLastD_max (np_sort l) (np_sort_sorted l) hsne
  exact ⟨hperm.mem_iff.mp hmem, fun x hx => hall x (hperm.mem_iff.mpr hx)⟩

/-- Unfolding of find_peak_bin_from_freq once the two float-to-int
conversions are known. -/
theorem find_peak_bin_from_freq_eval (freq : ℚ) (ps : List ℚ) (sr swhz : ℚ)
    (hint sw : ℤ)
    (hf : ⌊2 * freq / sr * (((ps.length : ℤ) : ℚ) - 1)⌋ = hint)
    (hc : ⌈swhz / (sr / 2) * (((ps.length : ℤ) : ℚ) - 1)⌉ = sw) :
    find_peak_bin_from_freq freq ps sr swhz =
      find_nearest_peak_around
        (pySlice ps (if hint - sw < 0 then 0 else hint - sw)
          (min (ps.length : ℤ) (hint + sw + 1)))
        (if hint - sw < 0 then sw + (hint - sw) else sw) sw.toNat + hint - sw := by
  simp only [find_peak_bin_from_freq, hf, hc]

/-! Concrete spectra used as counterexamples and witnesses. -/

/-- Periodogram on 11 bins whose fundamental skirt reaches the DC bin. -/
def psA : List ℚ := [1, 2, 3, 4, 5, 6, 1, 7, 2, 2, 2]

/-- Periodogram on 11 bins whose fundamental skirt stays clear of the DC bin. -/
def psW : List ℚ := [0, 5, 1, 2, 3, 6, 1, 2, 2, 2, 2]

/-- Clean magnitudes paired with psA in the SINAD examples. -/
def cleanA : List ℚ := [1, 1, 1, 1, 1, 3, 1, 1, 1, 1, 1]

/-- Clean magnitudes paired with psW in the SINAD examples. -/
def cleanW : List ℚ := [1, 1, 1, 1, 1, 2, 1, 1, 1, 1, 1]

/-- Spectrum on 11 bins with its maximum at the DC bin, used with a 1 Hz hint. -/
def psC2 : List ℚ := [5, 1, 1, 0, 0, 0, 0, 0, 0, 0, 0]

theorem toFinset_sum_eq_dedup_sum (l : List ℤ) (F : ℤ → ℚ) :
    l.toFinset.sum F = (l.dedup.map F).sum := by
  have h : l.dedup.toFinset = l.toFinset := by
    ext x
    simp [List.mem_toFinset, List.mem_dedup]
  rw [← h, List.sum_toFinset F (List.nodup_dedup l)]

theorem locate_psA : find_peak_bin_from_freq 25 psA 100 10 = 5 := by
  rw [find_peak_bin_from_freq_eval 25 psA 100 10 5 2 (by norm_num [psA]) (by norm_num [psA])]
  rfl

theorem locate_psW : find_peak_bin_from_freq 25 psW 100 10 = 5 := by
  rw [find_peak_bin_from_freq_eval 25 psW 100 10 5 2 (by norm_num [psW]) (by norm_num [psW])]
  rfl

theorem skirt_psA : find_peak_bins 5 psA 1000 = [5, 4, 3, 2, 1, 0, 5, 6] := rfl

theorem skirt_psW : find_peak_bins 5 psW 1000 = [5, 4, 3, 2, 5, 6] := rfl

theorem snrA_delete : (inner_snr psA 100 25 ([] : List ℤ) true).to_delete = [5, 4, 3, 2, 1, 0, 5, 6] := by
  simp only [inner_snr, locate_psA, skirt_psA, List.foldl_nil, List.append_nil]

theorem snrA_sbins : (inner_snr psA 100 25 ([] : List ℤ) true).signal_bins = [5, 4, 3, 2, 1, 0, 5, 6] := by
  simp only [inner_snr, locate_psA, skirt_psA, List.foldl_nil, if_true]

theorem snrA_signal : (inner_snr psA 100 25 ([] : List ℤ) true).signal_power = 28 := by
  simp only [inner_snr, locate_psA, skirt_psA, List.foldl_nil, if_true]
  rw [show List.map (npGet psA) [5, 4, 3, 2, 1, 0, 5, 6] = [6, 5, 4, 3, 2, 1, 6, 1] from rfl]
  norm_num

theorem snrA_noise : (inner_snr psA 100 25 ([] : List ℤ) true).noise_power = 6 := by
  simp only [inner_snr, locate_psA, skirt_psA, List.foldl_nil, List.append_nil]
  rw [show np_delete psA [5, 4, 3, 2, 1, 0, 5, 6] = [7, 2, 2, 2] from rfl]
  rw [show ([7, 2, 2, 2] : List ℚ).drop 1 = [2, 2, 2] from rfl]
  norm_num

theorem snrW_delete : (inner_snr psW 100 25 ([] : List ℤ) true).to_delete = [5, 4, 3, 2, 5, 6] := by
  simp only [inner_snr, locate_psW, skirt_psW, List.foldl_nil, List.append_nil]

theorem locate_psW2 : find_peak_bin_from_freq (((2 : ℤ) : ℚ) * 25) psW 100 10 = 8 := by
  rw [find_peak_bin_from_freq_eval (((2 : ℤ) : ℚ) * 25) psW 100 10 10 2
    (by norm_num [psW]) (by norm_num [psW])]
  rfl

theorem skirt_psW8 : find_peak_bins 8 psW 1000 = [8, 7, 6, 8, 9, 10] := rfl

theorem sinadD_bins :
    (inner_sinad psA cleanA 100 25 ([] : List ℤ)).fund_peak_bins = [5, 4, 3, 2, 1, 0, 5, 6] := by
  simp only [inner_sinad, locate_psA, skirt_psA]

theorem sinadD_scale : (inner_sinad psA cleanA 100 25 ([] : List ℤ)).mag_scale = 2 := by
  simp only [inner_sinad, locate_psA, skirt_psA]
  rw [show ([5, 4, 3, 2, 1, 0, 5, 6] : List ℤ).headD 0 = 5 from rfl,
    show ([5, 4, 3, 2, 1, 0, 5, 6] : List ℤ).getLastD 0 = 6 from rfl,
    show pySlice psA 5 6 = [6] from rfl,
    show pySlice cleanA 5 6 = [3] from rfl]
  norm_num

theorem sinadD_nad : (inner_sinad psA cleanA 100 25 ([] : List ℤ)).nad_power = 27 := by
  simp only [inner_sinad, locate_psA, skirt_psA]
  rw [show ([5, 4, 3, 2, 1, 0, 5, 6] : List ℤ).headD 0 = 5 from rfl,
    show ([5, 4, 3, 2, 1, 0, 5, 6] : List ℤ).getLastD 0 = 6 from rfl,
    show pySlice psA 5 6 = [6] from rfl,
    show pySlice cleanA 5 6 = [3] from rfl]
  have hsc : ([6] : List ℚ).sum / ([3] : List ℚ).sum = 2 := by norm_num
  rw [hsc]
  have hmap : psA.map (fun x => x * 2) = [2, 4, 6, 8, 10, 12, 2, 14, 4, 4, 4] := by
    norm_num [psA]
  rw [hmap]
  have hzip : List.zipWith (fun a b => a - b) [2, 4, 6, 8, 10, 12, 2, 14, 4, 4, 4] cleanA
      = [1, 3, 5, 7, 9, 9, 1, 13, 3, 3, 3] := by norm_num [cleanA]
  rw [hzip]
  have hsq : ([1, 3, 5, 7, 9, 9, 1, 13, 3, 3, 3] : List ℚ).map (fun x => x * x)
      = [1, 9, 25, 49, 81, 81, 1, 169, 9, 9, 9] := by norm_num
  rw [hsq]
  rw [show np_delete [1, 9, 25, 49, 81, 81, 1, 169, 9, 9, 9] [5, 4, 3, 2, 1, 0, 5, 6]
      = [169, 9, 9, 9] from rfl]
  rw [show ([169, 9, 9, 9] : List ℚ).drop 1 = [9, 9, 9] from rfl]
  norm_num

theorem sinadE_bins :
    (inner_sinad psW cleanW 100 25 ([] : List ℤ)).fund_peak_bins = [5, 4, 3, 2, 5, 6] := by
  simp only [inner_sinad, locate_psW, skirt_psW]

/-! Claim theorems. -/

/-- Claim C1, counterexample: on the spectrum `[1, 2, 1]` with seed bin 1 the
skirt returned by find_peak_bins contains the seed bin twice, not exactly once
as the claim states (both walks start by appending the seed). -/
theorem C1_counterexample : (find_peak_bins 1 [(1 : ℚ), 2, 1] 1000).count 1 ≠ 1 := by
  decide

/-- Claim C1, amended: for every spectrum and every in-range seed bin, the
skirt contains the seed bin exactly twice, and its set of bin indices is a
contiguous interval around the seed (so sorted and deduplicated it is an
ascending run with no gaps). -/
theorem C1_skirt_structure (ps : List ℚ) (p : ℤ) (sw : ℕ)
    (h0 : 0 ≤ p) (h1 : p < (ps.length : ℤ)) (h2 : 0 < sw) :
    (find_peak_bins p ps sw).count p = 2 ∧
    ∃ a b : ℤ, a ≤ p ∧ p ≤ b ∧ (find_peak_bins p ps sw).toFinset = Finset.Icc a b := by
  obtain ⟨a, b, ha, hb, hbN, hfin, hcount, hhead, hlast, hall, hsum⟩ :=
    find_peak_bins_spec ps p sw h0 h1 h2
  exact ⟨hcount, a, b, ha, hb, hfin⟩

/-- Claim C1 witness at the concrete spectrum `[1, 2, 1]`, seed bin 1. -/
theorem C1_skirt_structure_witness :
    ((0 : ℤ) ≤ 1 ∧ (1 : ℤ) < (([(1 : ℚ), 2, 1] : List ℚ).length : ℤ) ∧ 0 < 1000) ∧
    ((find_peak_bins 1 [(1 : ℚ), 2, 1] 1000).count 1 = 2 ∧
      ∃ a b : ℤ, a ≤ 1 ∧ 1 ≤ b ∧
        (find_peak_bins 1 [(1 : ℚ), 2, 1] 1000).toFinset = Finset.Icc a b) :=
  ⟨⟨by decide, by decide, by decide⟩,
    C1_skirt_structure [(1 : ℚ), 2, 1] 1 1000 (by decide) (by decide) (by decide)⟩

/-- Claim C2: the peak locator does not always return an index in
`[0, length - 1]`.  With an 11-bin spectrum, samplerate 100 and hint 1 Hz
(inside (0, Nyquist]), the hint bin is 0 and the search window is clamped at
the low edge, but the translation back to full-spectrum coordinates still
subtracts the unclamped width, producing the negative index -2: the
`search_center` computed for the clamped window is discarded because
find_nearest_peak_around overwrites its `center` parameter. -/
theorem C2_low_edge_negative : find_peak_bin_from_freq 1 psC2 100 10 = -2 := by
  rw [find_peak_bin_from_freq_eval 1 psC2 100 10 0 2 (by norm_num [psC2]) (by norm_num [psC2])]
  rfl

/-- Claim C10: for every spectrum and every in-range seed bin, find_peak_bins
returns a non-empty list whose first element is the seed bin itself, so
`bins[0]` and `bins[-1]` as used by inner_sinad are well-defined. -/
theorem C10_skirt_head (ps : List ℚ) (p : ℤ) (sw : ℕ)
    (h0 : 0 ≤ p) (h1 : p < (ps.length : ℤ)) (h2 : 0 < sw) :
    find_peak_bins p ps sw ≠ [] ∧ (find_peak_bins p ps sw).head? = some p := by
  obtain ⟨a, b, ha, hb, hbN, hfin, hcount, hhead, hlast, hall, hsum⟩ :=
    find_peak_bins_spec ps p sw h0 h1 h2
  refine ⟨?_, hhead⟩
  intro hnil
  rw [hnil] at hhead
  simp at hhead

/-- Claim C10 witness at the concrete spectrum `[1, 2, 1]`, seed bin 1. -/
theorem C10_skirt_head_witness :
    ((0 : ℤ) ≤ 1 ∧ (1 : ℤ) < (([(1 : ℚ), 2, 1] : List ℚ).length : ℤ) ∧ 0 < 1000) ∧
    (find_peak_bins 1 [(1 : ℚ), 2, 1] 1000 ≠ [] ∧
      (find_peak_bins 1 [(1 : ℚ), 2, 1] 1000).head? = some 1) :=
  ⟨⟨by decide, by decide, by decide⟩,
    C10_skirt_head [(1 : ℚ), 2, 1] 1 1000 (by decide) (by decide) (by decide)⟩

/-- Claim C3, counterexample: on psA (whose fundamental skirt reaches bin 0)
the noise power computed by inner_snr differs from the sum over all bins that
are neither in the skirt union nor equal to the DC bin: the code drops the
first surviving bin (bin 7, value 7) instead of the already-deleted bin 0. -/
theorem C3_counterexample :
    (inner_snr psA 100 25 ([] : List ℤ) true).noise_power ≠
      (((List.range psA.length).filter (fun i : ℕ =>
          !((inner_snr psA 100 25 ([] : List ℤ) true).to_delete.contains (i : ℤ)) &&
            !(i == 0))).map (fun i => psA.getD i 0)).sum := by
  rw [snrA_noise, snrA_delete]
  rw [show ((List.range psA.length).filter (fun i : ℕ =>
      !(([5, 4, 3, 2, 1, 0, 5, 6] : List ℤ).contains (i : ℤ)) && !(i == 0))).map
        (fun i => psA.getD i 0) = [7, 2, 2, 2] from rfl]
  norm_num

/-- Claim C3, amended: the excluded skirt set (and hence the noise power) is
the same for both values of the harmonics_excluded flag, and whenever the DC
bin is not itself inside the skirt union, the noise power equals the sum of
the periodogram over all bins that are neither in the union nor equal to bin
0; when bin 0 lies in the union the code instead drops the lowest-indexed
surviving bin. -/
theorem C3_noise_power (ps : List ℚ) (sr f : ℚ) (hs : List ℤ) (flag : Bool) :
    ((inner_snr ps sr f hs true).to_delete = (inner_snr ps sr f hs false).to_delete ∧
      (inner_snr ps sr f hs true).noise_power = (inner_snr ps sr f hs false).noise_power) ∧
    ((0 : ℤ) ∉ (inner_snr ps sr f hs flag).to_delete → ps ≠ [] →
      (inner_snr ps sr f hs flag).noise_power =
        (((List.range ps.length).filter (fun i : ℕ =>
            !((inner_snr ps sr f hs flag).to_delete.contains (i : ℤ)) && !(i == 0))).map
          (fun i => ps.getD i 0)).sum) := by
  refine ⟨⟨rfl, rfl⟩, ?_⟩
  intro h0 hne
  have hD := np_delete_drop_one ps (inner_snr ps sr f hs flag).to_delete h0 hne
  show ((np_delete ps ((inner_snr ps sr f hs flag).to_delete)).drop 1).sum = _
  rw [hD]

/-- Claim C3 witness on psW, whose fundamental skirt avoids the DC bin. -/
theorem C3_noise_power_witness :
    ((0 : ℤ) ∉ (inner_snr psW 100 25 ([] : List ℤ) true).to_delete ∧ psW ≠ []) ∧
    (inner_snr psW 100 25 ([] : List ℤ) true).noise_power =
      (((List.range psW.length).filter (fun i : ℕ =>
          !((inner_snr psW 100 25 ([] : List ℤ) true).to_delete.contains (i : ℤ)) &&
            !(i == 0))).map (fun i => psW.getD i 0)).sum :=
  ⟨⟨by rw [snrW_delete]; decide, by simp [psW]⟩,
    (C3_noise_power psW 100 25 ([] : List ℤ) true).2
      (by rw [snrW_delete]; decide) (by simp [psW])⟩

/-- Claim C4, counterexample: on psA the signal power computed by inner_snr
(28) is not the sum over the set of signal bins with each bin counted once
(22): the seed bin 5 appears twice in the skirt and is summed twice. -/
theorem C4_counterexample :
    (inner_snr psA 100 25 ([] : List ℤ) true).signal_power ≠
      (inner_snr psA 100 25 ([] : List ℤ) true).signal_bins.toFinset.sum (npGet psA) := by
  rw [snrA_signal, snrA_sbins, toFinset_sum_eq_dedup_sum]
  rw [show (([5, 4, 3, 2, 1, 0, 5, 6] : List ℤ).dedup).map (npGet psA)
      = [5, 4, 3, 2, 1, 6, 1] from rfl]
  norm_num

/-- Claim C4, amended: the signal power sums the signal-bin list with
multiplicity.  With harmonics excluded it equals the sum over the fundamental
skirt's bin set plus one extra copy of the fundamental seed bin's value; with
harmonics included, each harmonic skirt likewise contributes its own set sum
plus an extra copy of its own seed bin's value (bins shared between skirts are
counted once per skirt). -/
theorem C4_signal_power (ps : List ℚ) (sr f : ℚ) (hs : List ℤ)
    (hfb : 0 ≤ find_peak_bin_from_freq f ps sr 10 ∧
      find_peak_bin_from_freq f ps sr 10 < (ps.length : ℤ))
    (hhb : ∀ h ∈ hs, 0 ≤ find_peak_bin_from_freq ((h : ℚ) * f) ps sr 10 ∧
      find_peak_bin_from_freq ((h : ℚ) * f) ps sr 10 < (ps.length : ℤ)) :
    ((inner_snr ps sr f hs true).signal_power =
      (find_peak_bins (find_peak_bin_from_freq f ps sr 10) ps 1000).toFinset.sum (npGet ps)
        + npGet ps (find_peak_bin_from_freq f ps sr 10)) ∧
    ((inner_snr ps sr f hs false).signal_power =
      ((find_peak_bins (find_peak_bin_from_freq f ps sr 10) ps 1000).toFinset.sum (npGet ps)
        + npGet ps (find_peak_bin_from_freq f ps sr 10))
      + (hs.map (fun h : ℤ =>
          (find_peak_bins (find_peak_bin_from_freq ((h : ℚ) * f) ps sr 10) ps
            1000).toFinset.sum (npGet ps)
          + npGet ps (find_peak_bin_from_freq ((h : ℚ) * f) ps sr 10))).sum) := by
  have hfund := find_peak_bins_spec ps (find_peak_bin_from_freq f ps sr 10) 1000
    hfb.1 hfb.2 (by norm_num)
  obtain ⟨a, b, -, -, -, -, -, -, -, -, hsumf⟩ := hfund
  constructor
  · show ((find_peak_bins (find_peak_bin_from_freq f ps sr 10) ps 1000).map
      (npGet ps)).sum = _
    exact hsumf
  · show (((find_peak_bins (find_peak_bin_from_freq f ps sr 10) ps 1000) ++
      hs.foldl (fun (acc : List ℤ) (h : ℤ) => acc ++ find_peak_bins
        (find_peak_bin_from_freq ((h : ℚ) * f) ps sr 10) ps 1000) []).map
      (npGet ps)).sum = _
    rw [foldl_append_eq_join, List.nil_append, List.map_append, List.sum_append, hsumf]
    congr 1
    rw [join_map_sum, List.map_map]
    refine congrArg List.sum (List.map_congr_left ?_)
    intro h hmem
    obtain ⟨a2, b2, -, -, -, -, -, -, -, -, hsumh⟩ := find_peak_bins_spec ps
      (find_peak_bin_from_freq ((h : ℚ) * f) ps sr 10) 1000
      (hhb h hmem).1 (hhb h hmem).2 (by norm_num)
    simpa using hsumh

/-- Claim C4 witness on psW with the explicit harmonic list `[2]`. -/
theorem C4_signal_power_witness :
    ((0 ≤ find_peak_bin_from_freq 25 psW 100 10 ∧
        find_peak_bin_from_freq 25 psW 100 10 < (psW.length : ℤ)) ∧
      (∀ h ∈ ([2] : List ℤ), 0 ≤ find_peak_bin_from_freq ((h : ℚ) * 25) psW 100 10 ∧
        find_peak_bin_from_freq ((h : ℚ) * 25) psW 100 10 < (psW.length : ℤ))) ∧
    (((inner_snr psW 100 25 ([2] : List ℤ) true).signal_power =
      (find_peak_bins (find_peak_bin_from_freq 25 psW 100 10) psW 1000).toFinset.sum
          (npGet psW)
        + npGet psW (find_peak_bin_from_freq 25 psW 100 10)) ∧
    ((inner_snr psW 100 25 ([2] : List ℤ) false).signal_power =
      ((find_peak_bins (find_peak_bin_from_freq 25 psW 100 10) psW 1000).toFinset.sum
          (npGet psW)
        + npGet psW (find_peak_bin_from_freq 25 psW 100 10))
      + (([2] : List ℤ).map (fun h : ℤ =>
          (find_peak_bins (find_peak_bin_from_freq ((h : ℚ) * 25) psW 100 10) psW
            1000).toFinset.sum (npGet psW)
          + npGet psW (find_peak_bin_from_freq ((h : ℚ) * 25) psW 100 10))).sum)) :=
  ⟨⟨⟨by rw [locate_psW]; decide, by rw [locate_psW]; decide⟩,
      by
        intro h hmem
        have h2 : h = 2 := by simpa using hmem
        subst h2
        rw [locate_psW2]
        exact ⟨by decide, by decide⟩⟩,
    C4_signal_power psW 100 25 ([2] : List ℤ)
      ⟨by rw [locate_psW]; decide, by rw [locate_psW]; decide⟩
      (by
        intro h hmem
        have h2 : h = 2 := by simpa using hmem
        subst h2
        rw [locate_psW2]
        exact ⟨by decide, by decide⟩)⟩

/-- Claim C5, counterexample: on psA/cleanA the fundamental skirt covers bins
0 through 6, but the normalization gain is 2 = psA[5]/cleanA[5], not the ratio
22/9 of the sums over the skirt's full span: the slice runs from the seed bin
(the skirt array's unsorted first element) to its last element, exclusive. -/
theorem C5_counterexample :
    (inner_sinad psA cleanA 100 25 ([] : List ℤ)).fund_peak_bins.toFinset =
        Finset.Icc (0 : ℤ) 6 ∧
    (inner_sinad psA cleanA 100 25 ([] : List ℤ)).mag_scale ≠
      (Finset.Icc (0 : ℤ) 6).sum (npGet psA) / (Finset.Icc (0 : ℤ) 6).sum (npGet cleanA) := by
  constructor
  · rw [sinadD_bins]
    decide
  · rw [sinadD_scale]
    have h1 : (Finset.Icc (0 : ℤ) 6).sum (npGet psA) = 22 := by
      rw [show Finset.Icc (0 : ℤ) 6 = ([0, 1, 2, 3, 4, 5, 6] : List ℤ).toFinset from by decide]
      rw [toFinset_sum_eq_dedup_sum]
      rw [show (([0, 1, 2, 3, 4, 5, 6] : List ℤ).dedup).map (npGet psA)
          = [1, 2, 3, 4, 5, 6, 1] from rfl]
      norm_num
    have h2 : (Finset.Icc (0 : ℤ) 6).sum (npGet cleanA) = 9 := by
      rw [show Finset.Icc (0 : ℤ) 6 = ([0, 1, 2, 3, 4, 5, 6] : List ℤ).toFinset from by decide]
      rw [toFinset_sum_eq_dedup_sum]
      rw [show (([0, 1, 2, 3, 4, 5, 6] : List ℤ).dedup).map (npGet cleanA)
          = [1, 1, 1, 1, 1, 3, 1] from rfl]
      norm_num
    rw [h1, h2]
    norm_num

/-- Claim C5, amended: the normalization gain equals the ratio of the sums of
the noisy and clean magnitudes over the half-open span from the seed (peak)
bin — the first element of the unsorted skirt array — to the skirt's
highest-indexed bin, which is excluded. -/
theorem C5_gain (noisy clean : List ℚ) (sr f : ℚ) (hs : List ℤ)
    (h0 : 0 ≤ find_peak_bin_from_freq f noisy sr 10)
    (h1 : find_peak_bin_from_freq f noisy sr 10 < (noisy.length : ℤ))
    (hlen : clean.length = noisy.length) :
    ∃ b : ℤ, b ∈ find_peak_bins (find_peak_bin_from_freq f noisy sr 10) noisy 1000 ∧
      (∀ x ∈ find_peak_bins (find_peak_bin_from_freq f noisy sr 10) noisy 1000, x ≤ b) ∧
      find_peak_bin_from_freq f noisy sr 10 ≤ b ∧
      (inner_sinad noisy clean sr f hs).mag_scale =
        (Finset.Ico (find_peak_bin_from_freq f noisy sr 10) b).sum (npGet noisy) /
          (Finset.Ico (find_peak_bin_from_freq f noisy sr 10) b).sum (npGet clean) := by
  obtain ⟨a, b, ha, hb, hbN, hfin, hcount, hhead, hlast, hall, hsum⟩ :=
    find_peak_bins_spec noisy (find_peak_bin_from_freq f noisy sr 10) 1000 h0 h1
      (by norm_num)
  refine ⟨b, ?_, hall, hb, ?_⟩
  · have hmem : b ∈ (find_peak_bins (find_peak_bin_from_freq f noisy sr 10)
        noisy 1000).toFinset := by
      rw [hfin]
      exact Finset.mem_Icc.mpr ⟨le_trans ha hb, le_rfl⟩
    exact List.mem_toFinset.mp hmem
  · have hheadD : (find_peak_bins (find_peak_bin_from_freq f noisy sr 10)
        noisy 1000).headD 0 = find_peak_bin_from_freq f noisy sr 10 := by
      cases hl : find_peak_bins (find_peak_bin_from_freq f noisy sr 10) noisy 1000 with
      | nil => rw [hl] at hhead; exact absurd hhead (by simp)
      | cons x t =>
        rw [hl] at hhead
        have hx : x = find_peak_bin_from_freq f noisy sr 10 := by simpa using hhead
        simp [hx]
    show (pySlice noisy
        ((find_peak_bins (find_peak_bin_from_freq f noisy sr 10) noisy 1000).headD 0)
        ((find_peak_bins (find_peak_bin_from_freq f noisy sr 10) noisy 1000).getLastD 0)).sum /
      (pySlice clean
        ((find_peak_bins (find_peak_bin_from_freq f noisy sr 10) noisy 1000).headD 0)
        ((find_peak_bins (find_peak_bin_from_freq f noisy sr 10) noisy 1000).getLastD 0)).sum = _
    rw [hheadD, hlast]
    rw [pySlice_sum noisy _ b h0 (le_of_lt hbN),
      pySlice_sum clean _ b h0 (by rw [hlen]; exact le_of_lt hbN)]

/-- Claim C5 witness on psW/cleanW. -/
theorem C5_gain_witness :
    ((0 : ℤ) ≤ find_peak_bin_from_freq 25 psW 100 10 ∧
      find_peak_bin_from_freq 25 psW 100 10 < (psW.length : ℤ) ∧
      cleanW.length = psW.length) ∧
    (∃ b : ℤ, b ∈ find_peak_bins (find_peak_bin_from_freq 25 psW 100 10) psW 1000 ∧
      (∀ x ∈ find_peak_bins (find_peak_bin_from_freq 25 psW 100 10) psW 1000, x ≤ b) ∧
      find_peak_bin_from_freq 25 psW 100 10 ≤ b ∧
      (inner_sinad psW cleanW 100 25 ([] : List ℤ)).mag_scale =
        (Finset.Ico (find_peak_bin_from_freq 25 psW 100 10) b).sum (npGet psW) /
          (Finset.Ico (find_peak_bin_from_freq 25 psW 100 10) b).sum (npGet cleanW)) :=
  ⟨⟨by rw [locate_psW]; decide, by rw [locate_psW]; decide, by decide⟩,
    C5_gain psW cleanW 100 25 ([] : List ℤ)
      (by rw [locate_psW]; decide) (by rw [locate_psW]; decide) (by decide)⟩

/-- Claim C6, counterexample: on psA/cleanA the fundamental skirt reaches bin
0, and the noise-and-distortion power computed by inner_sinad (27) differs
from the sum of the squared noise magnitudes over all bins outside the skirt
and distinct from bin 0 (196): the code drops the first surviving bin (bin 7)
instead of the already-deleted DC bin. -/
theorem C6_counterexample :
    (inner_sinad psA cleanA 100 25 ([] : List ℤ)).nad_power ≠
      (((List.range ((List.zipWith (fun a b => a - b)
            (psA.map (fun x => x * (inner_sinad psA cleanA 100 25 ([] : List ℤ)).mag_scale))
            cleanA).map (fun x => x * x)).length).filter (fun i : ℕ =>
          !((inner_sinad psA cleanA 100 25 ([] : List ℤ)).fund_peak_bins.contains (i : ℤ)) &&
            !(i == 0))).map
        (fun i => ((List.zipWith (fun a b => a - b)
            (psA.map (fun x => x * (inner_sinad psA cleanA 100 25 ([] : List ℤ)).mag_scale))
            cleanA).map (fun x => x * x)).getD i 0)).sum := by
  rw [sinadD_nad, sinadD_scale, sinadD_bins]
  have hmap : psA.map (fun x => x * 2) = [2, 4, 6, 8, 10, 12, 2, 14, 4, 4, 4] := by
    norm_num [psA]
  have hzip : List.zipWith (fun a b => a - b) [2, 4, 6, 8, 10, 12, 2, 14, 4, 4, 4] cleanA
      = [1, 3, 5, 7, 9, 9, 1, 13, 3, 3, 3] := by norm_num [cleanA]
  have hsq : ([1, 3, 5, 7, 9, 9, 1, 13, 3, 3, 3] : List ℚ).map (fun x => x * x)
      = [1, 9, 25, 49, 81, 81, 1, 169, 9, 9, 9] := by norm_num
  rw [hmap, hzip, hsq]
  rw [show ((List.range ([1, 9, 25, 49, 81, 81, 1, 169, 9, 9, 9] : List ℚ).length).filter
      (fun i : ℕ => !(([5, 4, 3, 2, 1, 0, 5, 6] : List ℤ).contains (i : ℤ)) && !(i == 0))).map
        (fun i => ([1, 9, 25, 49, 81, 81, 1, 169, 9, 9, 9] : List ℚ).getD i 0)
      = [169, 9, 9, 9] from rfl]
  norm_num

/-- Claim C6, amended: whenever the DC bin is not itself inside the
fundamental's skirt, the noise-and-distortion power equals the sum of the
squared noise magnitudes (scaled noisy minus clean, squared) over all bins
that are neither in the fundamental's skirt nor equal to bin 0 — harmonic
skirts are not removed from this pool — and the value whose base-10 logarithm
(times 10) is returned equals (signalPower + nadPower)/nadPower.  When bin 0
lies in the skirt the code instead drops the lowest-indexed surviving bin. -/
theorem C6_nad_power (noisy clean : List ℚ) (sr f : ℚ) (hs : List ℤ)
    (h0 : (0 : ℤ) ∉ (inner_sinad noisy clean sr f hs).fund_peak_bins)
    (hne : List.zipWith (fun a b => a - b)
      (noisy.map (fun x => x * (inner_sinad noisy clean sr f hs).mag_scale)) clean ≠ []) :
    ((inner_sinad noisy clean sr f hs).nad_power =
      (((List.range ((List.zipWith (fun a b => a - b)
            (noisy.map (fun x => x * (inner_sinad noisy clean sr f hs).mag_scale))
            clean).map (fun x => x * x)).length).filter (fun i : ℕ =>
          !((inner_sinad noisy clean sr f hs).fund_peak_bins.contains (i : ℤ)) &&
            !(i == 0))).map
        (fun i => ((List.zipWith (fun a b => a - b)
            (noisy.map (fun x => x * (inner_sinad noisy clean sr f hs).mag_scale))
            clean).map (fun x => x * x)).getD i 0)).sum) ∧
    (inner_sinad noisy clean sr f hs).log_arg =
      ((inner_sinad noisy clean sr f hs).signal_power +
          (inner_sinad noisy clean sr f hs).nad_power) /
        (inner_sinad noisy clean sr f hs).nad_power := by
  constructor
  · have hPNne : (List.zipWith (fun a b => a - b)
        (noisy.map (fun x => x * (inner_sinad noisy clean sr f hs).mag_scale))
        clean).map (fun x => x * x) ≠ [] := by
      intro hPN
      exact hne (by simpa using hPN)
    have hD := np_delete_drop_one
      ((List.zipWith (fun a b => a - b)
        (noisy.map (fun x => x * (inner_sinad noisy clean sr f hs).mag_scale))
        clean).map (fun x => x * x))
      (inner_sinad noisy clean sr f hs).fund_peak_bins h0 hPNne
    show ((np_delete ((List.zipWith (fun a b => a - b)
        (noisy.map (fun x => x * (inner_sinad noisy clean sr f hs).mag_scale))
        clean).map (fun x => x * x))
        ((inner_sinad noisy clean sr f hs).fund_peak_bins)).drop 1).sum = _
    rw [hD]
  · rfl

/-- Claim C6 witness on psW/cleanW, whose fundamental skirt avoids bin 0. -/
theorem C6_nad_power_witness :
    ((0 : ℤ) ∉ (inner_sinad psW cleanW 100 25 ([] : List ℤ)).fund_peak_bins ∧
      List.zipWith (fun a b => a - b)
        (psW.map (fun x => x * (inner_sinad psW cleanW 100 25 ([] : List ℤ)).mag_scale))
        cleanW ≠ []) ∧
    ((inner_sinad psW cleanW 100 25 ([] : List ℤ)).nad_power =
      (((List.range ((List.zipWith (fun a b => a - b)
            (psW.map (fun x => x * (inner_sinad psW cleanW 100 25 ([] : List ℤ)).mag_scale))
            cleanW).map (fun x => x * x)).length).filter (fun i : ℕ =>
          !((inner_sinad psW cleanW 100 25 ([] : List ℤ)).fund_peak_bins.contains (i : ℤ)) &&
            !(i == 0))).map
        (fun i => ((List.zipWith (fun a b => a - b)
            (psW.map (fun x => x * (inner_sinad psW cleanW 100 25 ([] : List ℤ)).mag_scale))
            cleanW).map (fun x => x * x)).getD i 0)).sum) ∧
    (inner_sinad psW cleanW 100 25 ([] : List ℤ)).log_arg =
      ((inner_sinad psW cleanW 100 25 ([] : List ℤ)).signal_power +
          (inner_sinad psW cleanW 100 25 ([] : List ℤ)).nad_power) /
        (inner_sinad psW cleanW 100 25 ([] : List ℤ)).nad_power :=
  ⟨⟨by rw [sinadE_bins]; decide,
      by
        intro h
        have hl := congrArg List.length h
        simp [psW, cleanW] at hl⟩,
    C6_nad_power psW cleanW 100 25 ([] : List ℤ)
      (by rw [sinadE_bins]; decide)
      (by
        intro h
        have hl := congrArg List.length h
        simp [psW, cleanW] at hl)⟩

/-- Claim C7: inside inner_sinad, each harmonic's peak bin is located on the
clean power spectrum (the squared clean magnitudes) while its skirt is walked
on the noisy power spectrum (the squared, gain-scaled noisy magnitudes). -/
theorem C7_harmonic_sources (noisy clean : List ℚ) (sr f : ℚ) (hs : List ℤ) :
    (inner_sinad noisy clean sr f hs).harmonics_bins =
      (hs.map (fun h : ℤ => find_peak_bins
        (find_peak_bin_from_freq ((h : ℚ) * f) (clean.map (fun x => x * x)) sr 10)
        ((noisy.map (fun x => x * (inner_sinad noisy clean sr f hs).mag_scale)).map
          (fun x => x * x)) 1000)).join := by
  show hs.foldl (fun (acc : List ℤ) (h : ℤ) => acc ++ find_peak_bins
      (find_peak_bin_from_freq ((h : ℚ) * f) (clean.map (fun x => x * x)) sr 10)
      ((noisy.map (fun x => x * (inner_sinad noisy clean sr f hs).mag_scale)).map
        (fun x => x * x)) 1000) [] = _
  rw [foldl_append_eq_join]
  rw [List.nil_append]

/-- Claim C8: snr and sinad raise a validation error, independently of the
spectra, exactly when the samplerate is non-positive, the fundamental is
outside (0, Nyquist], or a non-empty explicit harmonic list contains an
element below 2 or above floor((samplerate/2)/fundamental); in the
top-harmonic case the message carries the computed maximum allowed value. -/
theorem C8_validation (sr f : ℚ) (hs : List ℤ) (mag noisy clean : List ℚ) (flag : Bool) :
    ((∃ e, validate_args sr f hs = Except.error e) ↔
      sr ≤ 0 ∨ f ≤ 0 ∨ sr / 2 < f ∨
        (hs ≠ [] ∧ ∃ h, h ∈ hs ∧ (h < 2 ∨ top_harmonic sr f < h))) ∧
    (∀ e, snr mag sr f hs flag = Except.error e ↔ validate_args sr f hs = Except.error e) ∧
    (∀ e, sinad noisy clean sr f hs = Except.error e ↔
      validate_args sr f hs = Except.error e) ∧
    (0 < sr → 0 < f → f ≤ sr / 2 → hs ≠ [] → (∀ h ∈ hs, 2 ≤ h) →
      (∃ h, h ∈ hs ∧ top_harmonic sr f < h) →
      validate_args sr f hs = Except.error
        ("Given your fundamental, the highest harmonic value should be "
          ++ toString (top_harmonic sr f))) := by
  refine ⟨?_, ?_, ?_, ?_⟩
  · simp only [validate_args]
    by_cases h1 : sr ≤ 0
    · rw [if_pos h1]
      exact iff_of_true ⟨_, rfl⟩ (Or.inl h1)
    · rw [if_neg h1]
      by_cases h2 : f ≤ 0 ∨ sr / 2 < f
      · rw [if_pos h2]
        refine iff_of_true ⟨_, rfl⟩ ?_
        rcases h2 with h2 | h2
        · exact Or.inr (Or.inl h2)
        · exact Or.inr (Or.inr (Or.inl h2))
      · rw [if_neg h2]
        push_neg at h2
        by_cases h3 : 0 < hs.length
        · have hsne : hs ≠ [] := by
            intro hnil
            rw [hnil] at h3
            simp at h3
          rw [if_pos h3]
          by_cases h4 : (np_sort hs).headD 0 < 2
          · rw [if_pos h4]
            refine iff_of_true ⟨_, rfl⟩ ?_
            exact Or.inr (Or.inr (Or.inr ⟨hsne,
              ⟨(np_sort hs).headD 0, (np_sort_headD_min hs hsne).1, Or.inl h4⟩⟩))
          · rw [if_neg h4]
            by_cases h5 : top_harmonic sr f < (np_sort hs).getLastD 0
            · rw [if_pos h5]
              refine iff_of_true ⟨_, rfl⟩ ?_
              exact Or.inr (Or.inr (Or.inr ⟨hsne,
                ⟨(np_sort hs).getLastD 0, (np_sort_getLastD_max hs hsne).1, Or.inr h5⟩⟩))
            · rw [if_neg h5]
              refine iff_of_false ?_ ?_
              · rintro ⟨e, he⟩
                exact Except.noConfusion he
              · rintro (h | h | h | ⟨-, x, hxmem, hx | hx⟩)
                · exact h1 h
                · exact absurd h (by linarith [h2.1])
                · exact absurd h (by linarith [h2.2])
                · have := (np_sort_headD_min hs hsne).2 x hxmem
                  omega
                · have := (np_sort_getLastD_max hs hsne).2 x hxmem
                  omega
        · rw [if_neg h3]
          have hsnil : hs = [] := by
            cases hs with
            | nil => rfl
            | cons a t => simp at h3
          refine iff_of_false ?_ ?_
          · rintro ⟨e, he⟩
            exact Except.noConfusion he
          · rintro (h | h | h | ⟨hne, -⟩)
            · exact h1 h
            · exact absurd h (by linarith [h2.1])
            · exact absurd h (by linarith [h2.2])
            · exact hne hsnil
  · intro e
    cases hv : validate_args sr f hs with
    | error e2 => simp [snr, hv]
    | ok u => simp [snr, hv]
  · intro e
    cases hv : validate_args sr f hs with
    | error e2 => simp [sinad, hv]
    | ok u => simp [sinad, hv]
  · intro hsr hf hf2 hsne hall h6
    obtain ⟨x, hxmem, hxtop⟩ := h6
    simp only [validate_args]
    rw [if_neg (not_le.mpr hsr)]
    rw [if_neg (fun h => h.elim (fun h => absurd h (not_le.mpr hf))
      (fun h => absurd h (not_lt.mpr hf2)))]
    rw [if_pos (List.length_pos.mpr hsne)]
    rw [if_neg (not_lt.mpr (hall _ (np_sort_headD_min hs hsne).1))]
    rw [if_pos (lt_of_lt_of_le hxtop ((np_sort_getLastD_max hs hsne).2 x hxmem))]

/-- Claim C8 witness: samplerate 100, fundamental 25, harmonics `[3]`
(maximum allowed multiplier is 2). -/
theorem C8_validation_witness :
    (0 < (100 : ℚ) ∧ 0 < (25 : ℚ) ∧ (25 : ℚ) ≤ 100 / 2 ∧ ([3] : List ℤ) ≠ [] ∧
      (∀ h ∈ ([3] : List ℤ), 2 ≤ h) ∧
      (∃ h, h ∈ ([3] : List ℤ) ∧ top_harmonic 100 25 < h) ∧
      top_harmonic 100 25 = 2) ∧
    validate_args 100 25 [3] = Except.error
      ("Given your fundamental, the highest harmonic value should be "
        ++ toString (top_harmonic 100 25)) :=
  ⟨⟨by norm_num, by norm_num, by norm_num, by simp, by decide,
      ⟨3, by simp, by norm_num [top_harmonic]⟩, by norm_num [top_harmonic]⟩,
    (C8_validation 100 25 [3] [] [] [] true).2.2.2 (by norm_num) (by norm_num)
      (by norm_num) (by simp) (by decide) ⟨3, by simp, by norm_num [top_harmonic]⟩⟩

/-- Claim C9: inner_sinad's final state of the caller's noisy array is the
original scaled elementwise by the gain, the clean array is returned
unchanged, and snr's result pairs the untouched caller magnitude array with
the metric state (the squared copy is fresh). -/
theorem C9_frame_effects (noisy clean mag : List ℚ) (sr f : ℚ) (hs : List ℤ)
    (flag : Bool) :
    (inner_sinad noisy clean sr f hs).noisyOut =
      noisy.map (fun x => x * (inner_sinad noisy clean sr f hs).mag_scale) ∧
    (inner_sinad noisy clean sr f hs).cleanOut = clean ∧
    Except.map (fun p => p.2) (snr mag sr f hs flag) =
      Except.map (fun _ => mag) (validate_args sr f hs) := by
  refine ⟨rfl, rfl, ?_⟩
  cases hv : validate_args sr f hs with
  | error e => simp [snr, hv, Except.map]
  | ok u => simp [snr, hv, Except.map]
